/-
Verification of the study-tracker reconciliation logic and ledger
operations (src/study_tracker_v2/app.py).

Modelling conventions:
* A Python `dict[str, int]` is an association list with insertion-order
  keys; `Dict.insert` mirrors `d[k] = v` (overwrite in place, else
  append).  All claims observe only the key -> value mapping, which is
  order independent, so the fact that pandas `groupby` sorts its group
  keys while we keep another order is invisible to every statement below.
* `datetime.date` values compared with `<=` are modelled as integer day
  ordinals (the comparison order is all the aggregation code uses).
* pandas integer sums are modelled with `Int`.
-/
import Mathlib

namespace StudyTracker

/-! ## Python dict model -/

abbrev Dict := List (String × Int)

/-- Lookup `d[k]`: first pair whose key matches. -/
def Dict.find (d : Dict) (k : String) : Option Int :=
  match d with
  | [] => none
  | p :: rest => if p.1 = k then some p.2 else Dict.find rest k

/-- `d[k] = v` on a Python dict: overwrite the existing key in place,
otherwise append the new pair at the end. -/
def Dict.insert (d : Dict) (k : String) (v : Int) : Dict :=
  if d.any (fun p => p.1 = k) then
    d.map (fun p => if p.1 = k then (k, v) else p)
  else
    d ++ [(k, v)]

/-! ## Progress entries and `cumulative_actual` (app.py lines 69-76) -/

/-- One row of the progress ledger, as used by the aggregation code.
`date` is the day ordinal of the `datetime.date` value. -/
structure Entry where
  date : Int
  module : String
  minutes : Int
  note : String
deriving DecidableEq, Repr

/-- `sub["minutes"].sum()` -/
def sumMinutes (l : List Entry) : Int :=
  (l.map (fun r => r.minutes)).sum

/-- The rows selected by `(df["date"] >= start_date) & (df["date"] <= end_date)`. -/
def filterRange (df : List Entry) (s e : Int) : List Entry :=
  df.filter (fun r => s ≤ r.date ∧ r.date ≤ e)

/-- The distinct module names occurring in `l` (the group keys of
`sub.groupby("module")`; pandas sorts them, we do not, see header note). -/
def moduleKeys (l : List Entry) : List String :=
  (l.map (fun r => r.module)).dedup

/-- `sub.groupby("module")["minutes"].sum().to_dict()` -/
def groupSum (l : List Entry) : Dict :=
  (moduleKeys l).map (fun m => (m, sumMinutes (l.filter (fun r => r.module = m))))

/-- `cumulative_actual(df, start_date, end_date)` from app.py:
```
if len(df) == 0:
    return {"total": 0}
mask = (df["date"] >= start_date) & (df["date"] <= end_date)
sub = df.loc[mask]
totals = sub.groupby("module")["minutes"].sum().to_dict()
totals["total"] = int(sub["minutes"].sum()) if len(sub) else 0
return totals
``` -/
def cumulative_actual (df : List Entry) (s e : Int) : Dict :=
  if df.length = 0 then [("total", 0)]
  else
    let sub := filterRange df s e
    let totals := groupSum sub
    Dict.insert totals "total" (if sub.length ≠ 0 then sumMinutes sub else 0)

/-! ## `cumulative_planned` (app.py lines 62-67)

A plan's `planned_minutes_per_day` dict is a list of
(module name, minutes-per-day) pairs with distinct names (it comes from a
Python dict). -/

/-- `cumulative_planned(plan, start_date, end_date)`:
```
p = planned_minutes_per_day(plan)
days = (end_date - start_date).days + 1
totals = {m: p[m] * days for m in p}
totals["total"] = sum(totals.values())
return totals
``` -/
def cumulative_planned (modules : List (String × Int)) (s e : Int) : Dict :=
  let days : Int := e - s + 1
  let totals : Dict := modules.map (fun p => (p.1, p.2 * days))
  Dict.insert totals "total" ((totals.map (fun p => p.2)).sum)

/-! ## `week_index` (app.py lines 78-83) -/

/-- `week_index(plan, today)`; `start` and `today` are day ordinals and
`Int.fdiv` is Python floor division `//`:
```
delta_days = (today - start).days
if delta_days < 0:
    return 0
return delta_days // 7 + 1
``` -/
def week_index (start today : Int) : Int :=
  let delta_days := today - start
  if delta_days < 0 then 0 else Int.fdiv delta_days 7 + 1

/-! ## Milestone ledger and the deliverable handler (app.py lines 183-191) -/

structure Milestone where
  week : Int
  done_date : String
  note : String
deriving DecidableEq, Repr

/-- The body of the "Save deliverable status" handler when the checkbox is
checked:
```
ms2 = ms.copy()
ms2 = ms2[ms2["week"] != current_week]
ms2 = pd.concat([ms2, pd.DataFrame([{"week": current_week, "done_date": str(log_date), "note": done_note}])], ignore_index=True)
save_milestones(ms2)
``` -/
def upsert (ms : List Milestone) (w : Int) (done_date note : String) : List Milestone :=
  (ms.filter (fun m => m.week ≠ w)) ++ [⟨w, done_date, note⟩]

/-- The whole handler: returns the milestone table that is in effect
afterwards together with whether `save_milestones` was called.
`if done: ... save ... else: st.info("Unchecked — no changes made.")` -/
def saveDeliverableHandler (done : Bool) (ms : List Milestone) (current_week : Int)
    (log_date note : String) : List Milestone × Bool :=
  if done then (upsert ms current_week log_date note, true) else (ms, false)

/-! ## `fetch_rss` (app.py lines 85-100)

The body is one `try`/`except`: the network request, `raise_for_status`
and `feedparser.parse` are external effects, so we embed their combined
outcome as an `Except` value: `Except.ok entries` is the parsed feed's
entry list, `Except.error ex` is the `str(ex)` of whatever exception the
`try` block raised.  `fetch_rss` itself is then a total function — the
`except` clause turns every failure into a returned value. -/

/-- A feedparser entry: each field is `none` when the attribute is absent
(`getattr(e, "title", "")` then supplies `""`). -/
structure RawEntry where
  title : Option String
  link : Option String
  published : Option String
  updated : Option String

structure Item where
  title : String
  link : String
  published : String
deriving DecidableEq, Repr

/-- Python `a or b` on strings: `b` when `a` is empty (falsy), else `a`. -/
def pyOr (a b : String) : String := if a = "" then b else a

/-- The loop `for e in parsed.entries[:max_items]: ... items.append(...)`. -/
def processEntries (entries : List RawEntry) (max_items : Nat) : List Item :=
  (entries.take max_items).map (fun e =>
    { title := (e.title.getD "").trim
      link := (e.link.getD "").trim
      published := pyOr (e.published.getD "") (e.updated.getD "") })

/-- `fetch_rss(url, max_items, timeout)` given the outcome of its `try`
block: on success `(items, None)`, on any exception `([], str(ex))`. -/
def fetch_rss (outcome : Except String (List RawEntry)) (max_items : Nat) :
    List Item × Option String :=
  match outcome with
  | Except.ok entries => (processEntries entries max_items, none)
  | Except.error ex => ([], some ex)

/-! ## Calendar dates, ISO strings and the progress CSV (app.py lines 24-36)

`save_progress` runs `pd.to_datetime(out["date"]).dt.date.astype(str)`:
every in-memory representation of the date cell is normalised to a
`datetime.date` and printed as `YYYY-MM-DD` (Python's `str` on a date is
`%04d-%02d-%02d`; `datetime.date` guarantees `1 <= year <= 9999`).
`load_progress` runs `pd.to_datetime(df["date"]).dt.date`, parsing the
string back to a date.  We implement the printer and the parser on
`List Char`. -/

structure Date where
  year : Nat
  month : Nat
  day : Nat
deriving DecidableEq, Repr

/-- The ranges `datetime.date` guarantees for its components. -/
def Date.Valid (d : Date) : Prop :=
  1 ≤ d.year ∧ d.year ≤ 9999 ∧ 1 ≤ d.month ∧ d.month ≤ 12 ∧ 1 ≤ d.day ∧ d.day ≤ 31

instance (d : Date) : Decidable d.Valid := by
  unfold Date.Valid
  infer_instance

def digitChar (n : Nat) : Char := Char.ofNat (48 + n)

def charVal (c : Char) : Nat := c.toNat - 48

def isDigitChar (c : Char) : Bool := decide (48 ≤ c.toNat) && decide (c.toNat ≤ 57)

/-- Decimal digits of `n`, most significant first; the first argument is
fuel (`natToChars` passes `n` itself, which suffices). `natChars _ 0 = []`. -/
def natChars : Nat → Nat → List Char
  | 0, _ => []
  | _ + 1, 0 => []
  | fuel + 1, n + 1 => natChars fuel ((n + 1) / 10) ++ [digitChar ((n + 1) % 10)]

def natToChars (n : Nat) : List Char := natChars n n

/-- Zero-padded decimal of width `w` (Python `"%0*d"`). -/
def padChars (w n : Nat) : List Char :=
  List.replicate (w - (natToChars n).length) '0' ++ natToChars n

/-- `str(datetime.date(y, m, d))` = `"%04d-%02d-%02d"`. -/
def dateToIso (d : Date) : List Char :=
  padChars 4 d.year ++ '-' :: (padChars 2 d.month ++ '-' :: padChars 2 d.day)

/-- Big-endian decimal parse (leading zeros allowed). -/
def parseNat (cs : List Char) : Nat :=
  cs.foldl (fun acc c => 10 * acc + charVal c) 0

/-- Split a character list on `'-'`. -/
def splitDash : List Char → List (List Char)
  | [] => [[]]
  | c :: rest =>
    if c = '-' then [] :: splitDash rest
    else
      match splitDash rest with
      | [] => [[c]]
      | g :: gs => (c :: g) :: gs

/-- `pd.to_datetime(s).dt.date` on a `"Y-M-D"` string: three dash-separated
digit groups with month and day in calendar range; anything else raises
(`none`). -/
def isoToDate (cs : List Char) : Option Date :=
  match splitDash cs with
  | [y, m, d] =>
    if (!y.isEmpty) && (!m.isEmpty) && (!d.isEmpty) &&
        y.all isDigitChar && m.all isDigitChar && d.all isDigitChar &&
        decide (1 ≤ parseNat m) && decide (parseNat m ≤ 12) &&
        decide (1 ≤ parseNat d) && decide (parseNat d ≤ 31) then
      some ⟨parseNat y, parseNat m, parseNat d⟩
    else none
  | _ => none

/-- An in-memory date cell during a session: either a `datetime.date`
object (from `st.date_input` or an earlier load) or a raw ISO string. -/
inductive DateRepr where
  | obj (d : Date)
  | str (s : List Char)
deriving DecidableEq, Repr

/-- `pd.to_datetime(cell).dt.date`: a date object passes through, a string
is parsed; unparseable input raises (`none`). -/
def to_datetime_date : DateRepr → Option Date
  | DateRepr.obj d => some d
  | DateRepr.str s => isoToDate s

/-- A progress row as held in memory during a session. -/
structure PEntry where
  date : DateRepr
  module : String
  minutes : Int
  note : String

/-- A progress row as written to `progress.csv` (date is the ISO string). -/
structure SavedPEntry where
  date : List Char
  module : String
  minutes : Int
  note : String
deriving DecidableEq, Repr

/-- A progress row after `load_progress`'s date conversion. -/
structure LEntry where
  date : Date
  module : String
  minutes : Int
  note : String
deriving DecidableEq, Repr

/-- One cell of `out["date"] = pd.to_datetime(out["date"]).dt.date.astype(str)`. -/
def saveRow (r : PEntry) : Option SavedPEntry :=
  (to_datetime_date r.date).map (fun d => ⟨dateToIso d, r.module, r.minutes, r.note⟩)

/-- `save_progress(df)`: normalise the date column and write the CSV;
`none` means the conversion raised. -/
def save_progress (df : List PEntry) : Option (List SavedPEntry) :=
  df.mapM saveRow

/-- One row of `load_progress`'s `df["date"] = pd.to_datetime(df["date"]).dt.date`. -/
def loadRow (r : SavedPEntry) : Option LEntry :=
  (isoToDate r.date).map (fun d => ⟨d, r.module, r.minutes, r.note⟩)

/-- A pandas DataFrame: column names plus rows. -/
structure Table (α : Type) where
  cols : List String
  rows : List α
deriving DecidableEq, Repr

/-- `load_progress()` (app.py lines 24-31).  The backing file is `none`
when absent, `some rows` when present (files written by `save_progress`
carry the canonical four-column header).  Missing file → empty frame with
the canonical columns; empty file → returned as read, without date
conversion; otherwise the date column is parsed, raising (`none`) on
unparseable dates. -/
def load_progress (file : Option (List SavedPEntry)) : Option (Table LEntry) :=
  match file with
  | none => some ⟨["date", "module", "minutes", "note"], []⟩
  | some rows =>
    if rows = [] then some ⟨["date", "module", "minutes", "note"], []⟩
    else (rows.mapM loadRow).map (fun rs => ⟨["date", "module", "minutes", "note"], rs⟩)

/-- `load_milestones()` (app.py lines 38-41): missing file → empty frame
with the canonical columns; present file → read as-is. -/
def load_milestones (file : Option (List Milestone)) : Table Milestone :=
  match file with
  | none => ⟨["week", "done_date", "note"], []⟩
  | some rows => ⟨["week", "done_date", "note"], rows⟩

/-- A reflection row, fields as stored in `reflections.csv`. -/
structure Reflection where
  timestamp : String
  date : String
  topic : String
  mood : String
  text : String
  tags : String
deriving DecidableEq, Repr

/-- `load_reflections()` (app.py lines 46-53): missing file → empty frame
with the canonical columns.  A present file is read as-is: the timestamp
column is re-parsed with `errors="coerce"`, which never raises (failures
become `NaT`); no claim observes the parsed value, so the cells are kept
as read. -/
def load_reflections (file : Option (List Reflection)) : Table Reflection :=
  match file with
  | none => ⟨["timestamp", "date", "topic", "mood", "text", "tags"], []⟩
  | some rows => ⟨["timestamp", "date", "topic", "mood", "text", "tags"], rows⟩

/-! ## Helper lemmas: dict lookup -/

theorem Dict.find_map_overwrite (k : String) (v : Int) :
    ∀ d : Dict, d.any (fun p => p.1 = k) = true →
      Dict.find (d.map (fun p => if p.1 = k then (k, v) else p)) k = some v := by
  intro d
  induction d with
  | nil => simp
  | cons p rest ih =>
    intro h
    by_cases hp : p.1 = k
    · simp [Dict.find, hp]
    · have : rest.any (fun p => p.1 = k) = true := by
        simpa [List.any_cons, hp] using h
      simpa [Dict.find, hp] using ih this

theorem Dict.find_append_single (k : String) (v : Int) :
    ∀ d : Dict, (∀ p ∈ d, p.1 ≠ k) → Dict.find (d ++ [(k, v)]) k = some v := by
  intro d
  induction d with
  | nil => simp [Dict.find]
  | cons p rest ih =>
    intro h
    have hp : p.1 ≠ k := h p (List.mem_cons_self p rest)
    have : ∀ q ∈ rest, q.1 ≠ k := fun q hq => h q (List.mem_cons_of_mem p hq)
    simpa [Dict.find, hp] using ih this

/-- `d[k] = v` then lookup of `k` gives `v`. -/
theorem Dict.find_insert_self (d : Dict) (k : String) (v : Int) :
    (d.insert k v).find k = some v := by
  unfold Dict.insert
  by_cases h : d.any (fun p => p.1 = k) = true
  · simpa [h] using Dict.find_map_overwrite k v d h
  · have hb := Bool.eq_false_iff.2 h
    have hall : ∀ p ∈ d, p.1 ≠ k := by
      intro p hp hk
      exact h (List.any_eq_true.2 ⟨p, hp, decide_eq_true hk⟩)
    simpa [hb] using Dict.find_append_single k v d hall

theorem Dict.find_map_ne (k k' : String) (v : Int) (h : k' ≠ k) :
    ∀ d : Dict, Dict.find (d.map (fun p => if p.1 = k then (k, v) else p)) k'
      = Dict.find d k' := by
  intro d
  induction d with
  | nil => simp [Dict.find]
  | cons p rest ih =>
    by_cases hp : p.1 = k
    · simp [Dict.find, hp, Ne.symm h, ih]
    · simp [Dict.find, hp, ih]

theorem Dict.find_append_ne (k k' : String) (v : Int) (h : k' ≠ k) :
    ∀ d : Dict, Dict.find (d ++ [(k, v)]) k' = Dict.find d k' := by
  intro d
  induction d with
  | nil => simp [Dict.find, Ne.symm h]
  | cons p rest ih =>
    by_cases hp : p.1 = k'
    · simp [Dict.find, hp]
    · simp [Dict.find, hp, ih]

/-- `d[k] = v` leaves lookups of other keys unchanged. -/
theorem Dict.find_insert_ne (d : Dict) (k k' : String) (v : Int) (h : k' ≠ k) :
    (d.insert k v).find k' = d.find k' := by
  unfold Dict.insert
  by_cases hc : d.any (fun p => p.1 = k) = true
  · simpa [hc] using Dict.find_map_ne k k' v h d
  · have hb := Bool.eq_false_iff.2 hc
    simpa [hb] using Dict.find_append_ne k k' v h d

/-- Lookup in a dict built by tagging each key of `keys` with `g`. -/
theorem Dict.find_map_key_of_mem (keys : List String) (g : String → Int) (k : String)
    (hk : k ∈ keys) :
    Dict.find (keys.map (fun m => (m, g m))) k = some (g k) := by
  induction keys with
  | nil => cases hk
  | cons a rest ih =>
    by_cases ha : a = k
    · subst ha; simp [Dict.find]
    · have : k ∈ rest := by
        cases hk with
        | head => exact absurd rfl ha
        | tail _ h => exact h
      simpa [Dict.find, ha] using ih this

theorem Dict.find_map_key_of_not_mem (keys : List String) (g : String → Int) (k : String)
    (hk : k ∉ keys) :
    Dict.find (keys.map (fun m => (m, g m))) k = none := by
  induction keys with
  | nil => simp [Dict.find]
  | cons a rest ih =>
    have ha : ¬ a = k := fun h => hk (h ▸ List.mem_cons_self a rest)
    have : k ∉ rest := fun h => hk (List.mem_cons_of_mem a h)
    simpa [Dict.find, ha] using ih this

/-! ## Helper lemmas: grouped sums -/

theorem find_groupSum_of_mem (l : List Entry) (m : String)
    (hm : m ∈ l.map (fun r => r.module)) :
    Dict.find (groupSum l) m = some (sumMinutes (l.filter (fun r => r.module = m))) :=
  Dict.find_map_key_of_mem _ _ _ (List.mem_dedup.2 hm)

theorem find_groupSum_of_not_mem (l : List Entry) (m : String)
    (hm : m ∉ l.map (fun r => r.module)) :
    Dict.find (groupSum l) m = none :=
  Dict.find_map_key_of_not_mem _ _ _ (fun h => hm (List.mem_dedup.1 h))

theorem groupSum_keys_ne (l : List Entry) (x : String)
    (h : ∀ r ∈ l, r.module ≠ x) :
    (groupSum l).any (fun p => p.1 = x) = false := by
  rw [List.any_eq_false]
  intro p hp
  simp only [groupSum, List.mem_map] at hp
  obtain ⟨m, hm, rfl⟩ := hp
  have : m ∈ l.map (fun r => r.module) := List.mem_dedup.1 hm
  obtain ⟨r, hr, rfl⟩ := List.mem_map.1 this
  simpa using h r hr

theorem sum_map_ite_of_not_mem (keys : List String) (x : String) (c : Int)
    (hx : x ∉ keys) :
    (keys.map (fun m => if x = m then c else 0)).sum = 0 := by
  induction keys with
  | nil => simp
  | cons a rest ih =>
    have ha : ¬ x = a := fun h => hx (h ▸ List.mem_cons_self a rest)
    have : x ∉ rest := fun h => hx (List.mem_cons_of_mem a h)
    simp [ha, ih this]

theorem sum_map_ite_of_mem (keys : List String) (x : String) (c : Int)
    (hnd : keys.Nodup) (hx : x ∈ keys) :
    (keys.map (fun m => if x = m then c else 0)).sum = c := by
  induction keys with
  | nil => cases hx
  | cons a rest ih =>
    rcases List.nodup_cons.1 hnd with ⟨hna, hnd'⟩
    by_cases ha : x = a
    · subst ha
      simp [sum_map_ite_of_not_mem rest x c hna]
    · have : x ∈ rest := by
        cases hx with
        | head => exact absurd rfl ha
        | tail _ h => exact h
      simp [ha, ih hnd' this]

theorem sum_map_add_int {α : Type} (f g : α → Int) (l : List α) :
    (l.map (fun x => f x + g x)).sum = (l.map f).sum + (l.map g).sum := by
  induction l with
  | nil => simp
  | cons a rest ih => simp [ih]; ring

/-- The grouped sums partition the total: summing each module's minutes
over the distinct modules gives the sum of all minutes. -/
theorem groupSum_values_sum (l : List Entry) :
    ((groupSum l).map (fun p => p.2)).sum = sumMinutes l := by
  unfold groupSum moduleKeys
  rw [List.map_map]
  show ((l.map (fun r => r.module)).dedup.map
      (fun m => sumMinutes (l.filter (fun r => r.module = m)))).sum = sumMinutes l
  induction l with
  | nil => simp [sumMinutes]
  | cons a t ih =>
    have hfil : ∀ m : String,
        sumMinutes ((a :: t).filter (fun r => r.module = m))
          = (if a.module = m then a.minutes else 0)
            + sumMinutes (t.filter (fun r => r.module = m)) := by
      intro m
      by_cases hm : a.module = m <;> simp [List.filter_cons, hm, sumMinutes]
    by_cases h : a.module ∈ t.map (fun r => r.module)
    · rw [List.map_cons, List.dedup_cons_of_mem h]
      simp only [hfil]
      rw [sum_map_add_int, ih,
        sum_map_ite_of_mem _ _ _ (List.nodup_dedup _) (List.mem_dedup.2 h)]
      simp [sumMinutes]
    · rw [List.map_cons, List.dedup_cons_of_not_mem h, List.map_cons, List.sum_cons]
      have ht : t.filter (fun r => r.module = a.module) = [] := by
        rw [List.filter_eq_nil_iff]
        intro r hr hmod
        exact h (List.mem_map.2 ⟨r, hr, by simpa using hmod.symm⟩)
      have h2 : ∀ m ∈ (t.map (fun r => r.module)).dedup, ¬ a.module = m := by
        intro m hm he
        exact h (he ▸ List.mem_dedup.1 hm)
      calc (sumMinutes ((a :: t).filter (fun r => r.module = a.module)))
            + (((t.map (fun r => r.module)).dedup).map
                (fun m => sumMinutes ((a :: t).filter (fun r => r.module = m)))).sum
      _ = a.minutes + (((t.map (fun r => r.module)).dedup).map
            (fun m => sumMinutes (t.filter (fun r => r.module = m)))).sum := by
          rw [hfil a.module]
          simp only [hfil]
          rw [sum_map_add_int, ht,
            sum_map_ite_of_not_mem _ _ _ (fun hm => h (List.mem_dedup.1 hm))]
          simp [sumMinutes]
      _ = a.minutes + sumMinutes t := by rw [ih]
      _ = sumMinutes (a :: t) := by simp [sumMinutes]

theorem Dict.insert_of_not_key (d : Dict) (k : String) (v : Int)
    (h : d.any (fun p => p.1 = k) = false) : d.insert k v = d ++ [(k, v)] := by
  simp [Dict.insert, h]

/-- Lookup in a dict built by retagging each pair's value, keys nodup. -/
theorem Dict.find_map_pair (f : String × Int → Int) :
    ∀ (mods : List (String × Int)) (p : String × Int),
      (mods.map (fun q => q.1)).Nodup → p ∈ mods →
      Dict.find (mods.map (fun q => (q.1, f q))) p.1 = some (f p) := by
  intro mods
  induction mods with
  | nil => intro p _ hp; cases hp
  | cons a rest ih =>
    intro p hnd hp
    rw [List.map_cons] at hnd
    rcases List.nodup_cons.1 hnd with ⟨hna, hnd'⟩
    by_cases hap : a.1 = p.1
    · rcases List.mem_cons.1 hp with rfl | hpr
      · simp [Dict.find]
      · exact absurd (by rw [hap]; exact List.mem_map.2 ⟨p, hpr, rfl⟩) hna
    · have hpr : p ∈ rest := by
        rcases List.mem_cons.1 hp with rfl | h
        · exact absurd rfl hap
        · exact h
      simpa [Dict.find, hap] using ih p hnd' hpr

theorem map_pair_keys_ne (f : String × Int → Int) (mods : List (String × Int)) (x : String)
    (h : ∀ p ∈ mods, p.1 ≠ x) :
    (mods.map (fun q => (q.1, f q))).any (fun p => p.1 = x) = false := by
  rw [List.any_eq_false]
  intro p hp
  obtain ⟨q, hq, rfl⟩ := List.mem_map.1 hp
  simpa using h q hq

/-! ## Helper lemmas: `cumulative_actual` unfolding -/

theorem cumulative_actual_of_ne_nil (df : List Entry) (s e : Int) (hdf : df ≠ []) :
    cumulative_actual df s e
      = Dict.insert (groupSum (filterRange df s e)) "total"
          (sumMinutes (filterRange df s e)) := by
  have hlen : ¬ df.length = 0 := by simpa [List.length_eq_zero] using hdf
  have hval : (if (filterRange df s e).length ≠ 0 then sumMinutes (filterRange df s e) else 0)
      = sumMinutes (filterRange df s e) := by
    by_cases hs : (filterRange df s e).length = 0
    · have h0 : filterRange df s e = [] := List.length_eq_zero.1 hs
      simp [hs, h0, sumMinutes]
    · simp [hs]
  simp only [cumulative_actual, hlen, if_false, hval]

/-! ## Helper lemmas: milestone upsert -/

theorem upsert_filter_week (ms : List Milestone) (w : Int) (d n : String) :
    (upsert ms w d n).filter (fun m => m.week = w) = [⟨w, d, n⟩] := by
  unfold upsert
  rw [List.filter_append]
  have h1 : (ms.filter (fun m => m.week ≠ w)).filter (fun m => m.week = w) = [] := by
    rw [List.filter_filter, List.filter_eq_nil_iff]
    intro m _
    simp only [Bool.and_eq_true, decide_eq_true_eq]
    rintro ⟨h1, h2⟩
    exact h2 h1
  rw [h1]
  simp

theorem upsert_filter_ne_week (ms : List Milestone) (w : Int) (d n : String) :
    (upsert ms w d n).filter (fun m => m.week ≠ w) = ms.filter (fun m => m.week ≠ w) := by
  unfold upsert
  rw [List.filter_append]
  have h1 : (ms.filter (fun m => m.week ≠ w)).filter (fun m => m.week ≠ w)
      = ms.filter (fun m => m.week ≠ w) := by
    rw [List.filter_filter]
    simp
  have h2 : ([(⟨w, d, n⟩ : Milestone)]).filter (fun m => m.week ≠ w) = [] := by simp
  rw [h1, h2, List.append_nil]

/-! ## Helper lemmas: decimal printing and parsing -/

theorem charVal_digitChar (k : Nat) (hk : k < 10) : charVal (digitChar k) = k := by
  interval_cases k <;> decide

theorem digitChar_ne_dash (k : Nat) (hk : k < 10) : digitChar k ≠ '-' := by
  interval_cases k <;> decide

theorem isDigitChar_digitChar (k : Nat) (hk : k < 10) : isDigitChar (digitChar k) = true := by
  interval_cases k <;> decide

theorem mem_natChars : ∀ (fuel n : Nat), ∀ c ∈ natChars fuel n, ∃ k, k < 10 ∧ c = digitChar k := by
  intro fuel
  induction fuel with
  | zero => intro n c hc; simp [natChars] at hc
  | succ f ih =>
    intro n c hc
    match n with
    | 0 => simp [natChars] at hc
    | m + 1 =>
      simp only [natChars] at hc
      rcases List.mem_append.1 hc with h | h
      · exact ih _ c h
      · rw [List.mem_singleton.1 h]
        exact ⟨(m + 1) % 10, Nat.mod_lt _ (by norm_num), rfl⟩

theorem mem_padChars (w n : Nat) : ∀ c ∈ padChars w n, ∃ k, k < 10 ∧ c = digitChar k := by
  intro c hc
  simp only [padChars, natToChars] at hc
  rcases List.mem_append.1 hc with h | h
  · rw [List.eq_of_mem_replicate h]
    exact ⟨0, by norm_num, by decide⟩
  · exact mem_natChars n n c h

theorem parseNat_append_singleton (l : List Char) (c : Char) :
    parseNat (l ++ [c]) = 10 * parseNat l + charVal c := by
  simp [parseNat, List.foldl_append]

theorem parseNat_natChars : ∀ (fuel n : Nat), n ≤ fuel → parseNat (natChars fuel n) = n := by
  intro fuel
  induction fuel with
  | zero =>
    intro n hn
    interval_cases n
    simp [natChars, parseNat]
  | succ f ih =>
    intro n hn
    match n with
    | 0 => simp [natChars, parseNat]
    | m + 1 =>
      simp only [natChars]
      rw [parseNat_append_singleton, ih ((m + 1) / 10) (by omega),
        charVal_digitChar _ (Nat.mod_lt _ (by norm_num))]
      omega

theorem parseNat_natToChars (n : Nat) : parseNat (natToChars n) = n :=
  parseNat_natChars n n le_rfl

theorem parseNat_replicate_zero_append (k : Nat) (cs : List Char) :
    parseNat (List.replicate k '0' ++ cs) = parseNat cs := by
  unfold parseNat
  rw [List.foldl_append]
  congr 1
  induction k with
  | zero => simp
  | succ i ih =>
    rw [List.replicate_succ, List.foldl_cons]
    simpa [charVal] using ih

theorem parseNat_padChars (w n : Nat) : parseNat (padChars w n) = n := by
  unfold padChars
  rw [parseNat_replicate_zero_append, parseNat_natToChars]

theorem padChars_ne_nil (w n : Nat) (hw : 1 ≤ w) : padChars w n ≠ [] := by
  unfold padChars
  intro h
  rcases List.append_eq_nil.1 h with ⟨h1, h2⟩
  have hl : (natToChars n).length = 0 := by rw [h2]; rfl
  rw [List.replicate_eq_nil_iff] at h1
  omega

/-! ## Helper lemmas: dash splitting -/

theorem splitDash_no_dash : ∀ (l : List Char), (∀ c ∈ l, c ≠ '-') → splitDash l = [l] := by
  intro l
  induction l with
  | nil => intro _; rfl
  | cons c rest ih =>
    intro h
    have hc : c ≠ '-' := h c (List.mem_cons_self _ _)
    have hr := ih (fun x hx => h x (List.mem_cons_of_mem _ hx))
    simp [splitDash, hc, hr]

theorem splitDash_append : ∀ (l1 l2 : List Char), (∀ c ∈ l1, c ≠ '-') →
    splitDash (l1 ++ '-' :: l2) = l1 :: splitDash l2 := by
  intro l1 l2
  induction l1 with
  | nil => intro _; simp [splitDash]
  | cons c rest ih =>
    intro h
    have hc : c ≠ '-' := h c (List.mem_cons_self _ _)
    have hr := ih (fun x hx => h x (List.mem_cons_of_mem _ hx))
    simp [splitDash, hc, hr]

/-! ## Helper lemmas: ISO date round-trip -/

theorem isoToDate_dateToIso (d : Date) (hd : d.Valid) : isoToDate (dateToIso d) = some d := by
  obtain ⟨y, mo, dy⟩ := d
  obtain ⟨h1, h2, h3, h4, h5, h6⟩ := hd
  have hyd : ∀ c ∈ padChars 4 y, c ≠ '-' := by
    intro c hc
    obtain ⟨k, hk, rfl⟩ := mem_padChars 4 y c hc
    exact digitChar_ne_dash k hk
  have hmd : ∀ c ∈ padChars 2 mo, c ≠ '-' := by
    intro c hc
    obtain ⟨k, hk, rfl⟩ := mem_padChars 2 mo c hc
    exact digitChar_ne_dash k hk
  have hdd : ∀ c ∈ padChars 2 dy, c ≠ '-' := by
    intro c hc
    obtain ⟨k, hk, rfl⟩ := mem_padChars 2 dy c hc
    exact digitChar_ne_dash k hk
  have e1 : (padChars 4 y).isEmpty = false := by
    cases h : padChars 4 y with
    | nil => exact absurd h (padChars_ne_nil _ _ (by norm_num))
    | cons a l => rfl
  have e2 : (padChars 2 mo).isEmpty = false := by
    cases h : padChars 2 mo with
    | nil => exact absurd h (padChars_ne_nil _ _ (by norm_num))
    | cons a l => rfl
  have e3 : (padChars 2 dy).isEmpty = false := by
    cases h : padChars 2 dy with
    | nil => exact absurd h (padChars_ne_nil _ _ (by norm_num))
    | cons a l => rfl
  have a1 : (padChars 4 y).all isDigitChar = true := by
    rw [List.all_eq_true]
    intro c hc
    obtain ⟨k, hk, rfl⟩ := mem_padChars 4 y c hc
    exact isDigitChar_digitChar k hk
  have a2 : (padChars 2 mo).all isDigitChar = true := by
    rw [List.all_eq_true]
    intro c hc
    obtain ⟨k, hk, rfl⟩ := mem_padChars 2 mo c hc
    exact isDigitChar_digitChar k hk
  have a3 : (padChars 2 dy).all isDigitChar = true := by
    rw [List.all_eq_true]
    intro c hc
    obtain ⟨k, hk, rfl⟩ := mem_padChars 2 dy c hc
    exact isDigitChar_digitChar k hk
  unfold dateToIso isoToDate
  rw [splitDash_append _ _ hyd, splitDash_append _ _ hmd, splitDash_no_dash _ hdd]
  simp [e1, e2, e3, a1, a2, a3, parseNat_padChars, h3, h4, h5, h6]

/-! ## Helper lemmas: progress save/load row composition -/

theorem saveRow_loadRow (r : PEntry) (d : Date) (h : to_datetime_date r.date = some d)
    (hv : d.Valid) :
    saveRow r = some ⟨dateToIso d, r.module, r.minutes, r.note⟩ ∧
    loadRow ⟨dateToIso d, r.module, r.minutes, r.note⟩
      = some ⟨d, r.module, r.minutes, r.note⟩ := by
  constructor
  · simp [saveRow, h]
  · simp [loadRow, isoToDate_dateToIso d hv]

theorem mapM_save_load_roundtrip : ∀ df : List PEntry,
    (∀ r ∈ df, ∃ d, to_datetime_date r.date = some d ∧ d.Valid) →
    ∃ saved loaded, df.mapM saveRow = some saved ∧ saved.mapM loadRow = some loaded ∧
      List.Forall₂ (fun (r : PEntry) (l : LEntry) =>
        to_datetime_date r.date = some l.date ∧ l.module = r.module ∧
        l.minutes = r.minutes ∧ l.note = r.note) df loaded := by
  intro df
  induction df with
  | nil => exact fun _ => ⟨[], [], rfl, rfl, List.Forall₂.nil⟩
  | cons r rest ih =>
    intro h
    obtain ⟨d, hd, hv⟩ := h r (List.mem_cons_self _ _)
    obtain ⟨hs, hl⟩ := saveRow_loadRow r d hd hv
    obtain ⟨saved, loaded, h1, h2, h3⟩ := ih (fun x hx => h x (List.mem_cons_of_mem _ hx))
    refine ⟨⟨dateToIso d, r.module, r.minutes, r.note⟩ :: saved,
      ⟨d, r.module, r.minutes, r.note⟩ :: loaded, ?_, ?_, ?_⟩
    · rw [List.mapM_cons, hs, h1]; rfl
    · rw [List.mapM_cons, hl, h2]; rfl
    · exact List.Forall₂.cons ⟨hd, rfl, rfl, rfl⟩ h3

/-! ## Claim theorems -/

/-- C1: `week_index` returns 0 for any date before the plan start; for
`today >= start` it returns `floor((today - start) / 7) + 1`; hence the
days at offsets `7*(w-1) .. 7*(w-1)+6` from the start lie in week `w`
(week 1 is the start date through 6 days after, week 2 is days 7-13, and
so on). -/
theorem C1_week_index (s t : Int) :
    (t < s → week_index s t = 0) ∧
    (s ≤ t → week_index s t = Int.fdiv (t - s) 7 + 1) ∧
    (∀ d k : Nat, k < 7 → week_index s (s + 7 * d + k) = d + 1) := by
  refine ⟨?_, ?_, ?_⟩
  · intro h
    unfold week_index
    rw [if_pos (by omega)]
  · intro h
    unfold week_index
    rw [if_neg (by omega)]
  · intro d k hk
    unfold week_index
    rw [if_neg (by omega)]
    have he : s + 7 * (d : Int) + (k : Int) - s = 7 * (d : Int) + (k : Int) := by ring
    rw [he, Int.fdiv_eq_ediv _ (by norm_num)]
    have hk7 : (k : Int) < 7 := by exact_mod_cast hk
    have hk0 : (0 : Int) ≤ (k : Int) := Int.natCast_nonneg k
    omega

/-- C1 witness: with the plan starting at day 100, day 99 is week 0,
days 100 and 106 are week 1, days 107 and 113 are week 2. -/
theorem C1_week_index_witness :
    week_index 100 99 = 0 ∧ week_index 100 100 = 1 ∧ week_index 100 106 = 1 ∧
    week_index 100 107 = 2 ∧ week_index 100 113 = 2 := by
  refine ⟨(C1_week_index 100 99).1 (by norm_num), ?_, ?_, ?_, ?_⟩
  · have h := (C1_week_index 100 100).2.2 0 0 (by norm_num)
    norm_num at h
    exact h
  · have h := (C1_week_index 100 100).2.2 0 6 (by norm_num)
    norm_num at h
    exact h
  · have h := (C1_week_index 100 100).2.2 1 0 (by norm_num)
    norm_num at h
    exact h
  · have h := (C1_week_index 100 100).2.2 1 6 (by norm_num)
    norm_num at h
    exact h

/-- C2 counterexample: with an in-range entry whose module is literally
`"total"` (entries `[(0, "total", 5), (0, "algo", 3)]`, range `0..0`),
the returned value at key `"total"` is the grand sum 8, not that module's
summed minutes 5 — so the result does not hold each module's summed
minutes as the claim states for every entry sequence. -/
theorem C2_counterexample :
    Dict.find (cumulative_actual [⟨0, "total", 5, ""⟩, ⟨0, "algo", 3, ""⟩] 0 0) "total"
      = some 8 ∧
    sumMinutes ((filterRange [⟨0, "total", 5, ""⟩, ⟨0, "algo", 3, ""⟩] 0 0).filter
      (fun r => r.module = "total")) = 5 ∧
    (8 : Int) ≠ 5 := by
  refine ⟨by decide, by decide, by decide⟩

/-- C2 (amended): for every entry sequence in which no entry's module is
named "total", `cumulative_actual` keeps exactly the entries whose date
lies in the inclusive range, groups them by module, and returns each
module's summed minutes plus a "total" key holding the grand sum of the
kept entries' minutes (no other keys appear). -/
theorem C2_cumulative_actual (df : List Entry) (s e : Int)
    (hno : ∀ r ∈ df, r.module ≠ "total") :
    Dict.find (cumulative_actual df s e) "total"
      = some (sumMinutes (filterRange df s e)) ∧
    (∀ m, m ∈ (filterRange df s e).map (fun r => r.module) →
      Dict.find (cumulative_actual df s e) m
        = some (sumMinutes ((filterRange df s e).filter (fun r => r.module = m)))) ∧
    (∀ m, m ≠ "total" → m ∉ (filterRange df s e).map (fun r => r.module) →
      Dict.find (cumulative_actual df s e) m = none) := by
  by_cases hdf : df = []
  · subst hdf
    refine ⟨by simp [cumulative_actual, filterRange, sumMinutes, Dict.find], ?_, ?_⟩
    · intro m hm
      simp [filterRange] at hm
    · intro m hm _
      simp [cumulative_actual, Dict.find, Ne.symm hm]
  · have hca := cumulative_actual_of_ne_nil df s e hdf
    have hsub : ∀ r ∈ filterRange df s e, r.module ≠ "total" := by
      intro r hr
      exact hno r (List.mem_filter.1 hr).1
    refine ⟨?_, ?_, ?_⟩
    · rw [hca]
      exact Dict.find_insert_self _ _ _
    · intro m hm
      have hmne : m ≠ "total" := by
        obtain ⟨r, hr, rfl⟩ := List.mem_map.1 hm
        exact hsub r hr
      rw [hca, Dict.find_insert_ne _ _ _ _ hmne]
      exact find_groupSum_of_mem _ _ hm
    · intro m hm1 hm2
      rw [hca, Dict.find_insert_ne _ _ _ _ hm1]
      exact find_groupSum_of_not_mem _ _ hm2

/-- C2 witness: the spec's example — entries
`[(day 0, "stats", 30), (day 1, "stats", 20), (day 0, "algo", 10)]` over
the range `day 0 .. day 1` give `{"stats": 50, "algo": 10, "total": 60}`. -/
theorem C2_cumulative_actual_witness :
    Dict.find (cumulative_actual
      [⟨0, "stats", 30, ""⟩, ⟨1, "stats", 20, ""⟩, ⟨0, "algo", 10, ""⟩] 0 1) "stats"
      = some 50 ∧
    Dict.find (cumulative_actual
      [⟨0, "stats", 30, ""⟩, ⟨1, "stats", 20, ""⟩, ⟨0, "algo", 10, ""⟩] 0 1) "algo"
      = some 10 ∧
    Dict.find (cumulative_actual
      [⟨0, "stats", 30, ""⟩, ⟨1, "stats", 20, ""⟩, ⟨0, "algo", 10, ""⟩] 0 1) "total"
      = some 60 := by
  have h := C2_cumulative_actual
    [⟨0, "stats", 30, ""⟩, ⟨1, "stats", 20, ""⟩, ⟨0, "algo", 10, ""⟩] 0 1 (by decide)
  refine ⟨?_, ?_, ?_⟩
  · rw [h.2.1 "stats" (by decide)]
    decide
  · rw [h.2.1 "algo" (by decide)]
    decide
  · rw [h.1]
    decide

/-- C3 counterexample: a plan whose module dict is
`{"total": 10, "x": 5}` over the one-day range `0..0` returns 15 at key
`"total"` (the grand sum overwrites that module's `10 * 1`), so the
per-module formula of the claim fails for a module named "total". -/
theorem C3_counterexample :
    Dict.find (cumulative_planned [("total", 10), ("x", 5)] 0 0) "total" = some 15 ∧
    (10 : Int) * ((0 : Int) - 0 + 1) = 10 ∧
    (15 : Int) ≠ 10 := by
  refine ⟨by decide, by decide, by decide⟩

/-- C3 (amended): for every plan whose (distinct) module names do not
include "total" and every pair of dates, `cumulative_planned` returns
`planned_minutes_per_day[m] * ((end - start).days + 1)` for each module
`m` plus a "total" key equal to the sum over modules; it scales linearly
with the inclusive day count.  A reversed range yields a non-positive day
count with no guard — the count is 0 when `end = start - 1` and strictly
negative (making positive-rate totals negative) when `end < start - 1`. -/
theorem C3_cumulative_planned (modules : List (String × Int)) (s e : Int)
    (hnd : (modules.map (fun p => p.1)).Nodup)
    (hno : ∀ p ∈ modules, p.1 ≠ "total") :
    (∀ p ∈ modules,
      Dict.find (cumulative_planned modules s e) p.1 = some (p.2 * (e - s + 1))) ∧
    Dict.find (cumulative_planned modules s e) "total"
      = some ((modules.map (fun p => p.2 * (e - s + 1))).sum) ∧
    (e < s → e - s + 1 ≤ 0) ∧
    (e + 1 < s → e - s + 1 < 0 ∧
      ∀ p ∈ modules, 0 < p.2 → p.2 * (e - s + 1) < 0) := by
  refine ⟨?_, ?_, by omega, fun h => ⟨by omega, fun p _ hp2 => ?_⟩⟩
  · intro p hp
    have hpt : p.1 ≠ "total" := hno p hp
    unfold cumulative_planned
    rw [Dict.find_insert_ne _ _ _ _ hpt]
    exact Dict.find_map_pair _ modules p hnd hp
  · unfold cumulative_planned
    rw [Dict.find_insert_self]
    congr 1
    rw [List.map_map]
    rfl
  · exact mul_neg_of_pos_of_neg hp2 (by omega)

/-- C3 witness: plan `{"stats": 60, "algo": 30}`: over days `0..2`
(3 days) stats is 180 and the total 270; over the reversed range
`0..-2` the stats total is the negative `-60`. -/
theorem C3_cumulative_planned_witness :
    Dict.find (cumulative_planned [("stats", 60), ("algo", 30)] 0 2) "stats"
      = some 180 ∧
    Dict.find (cumulative_planned [("stats", 60), ("algo", 30)] 0 2) "total"
      = some 270 ∧
    Dict.find (cumulative_planned [("stats", 60), ("algo", 30)] 0 (-2)) "stats"
      = some (-60) := by
  have h1 := C3_cumulative_planned [("stats", 60), ("algo", 30)] 0 2 (by decide) (by decide)
  have h2 := C3_cumulative_planned [("stats", 60), ("algo", 30)] 0 (-2) (by decide) (by decide)
  refine ⟨?_, ?_, ?_⟩
  · have := h1.1 ("stats", 60) (by decide)
    rw [this]
    decide
  · rw [h1.2.1]
    decide
  · have := h2.1 ("stats", 60) (by decide)
    rw [this]
    decide

/-- C4: `cumulative_actual` on the empty entry sequence returns exactly
`{"total": 0}`, with no per-module keys, for every date range. -/
theorem C4_cumulative_actual_empty (s e : Int) :
    cumulative_actual [] s e = [("total", 0)] := rfl

/-- C5: the deliverable upsert removes every existing row of the given
week, appends exactly the one new row, and persists (the handler saves);
upserting the same week twice leaves exactly one row for that week,
holding the latest note. -/
theorem C5_upsert (ms : List Milestone) (w : Int) (d1 n1 d2 n2 : String) :
    saveDeliverableHandler true ms w d1 n1 = (upsert ms w d1 n1, true) ∧
    (upsert ms w d1 n1).filter (fun m => m.week = w) = [⟨w, d1, n1⟩] ∧
    (upsert ms w d1 n1).filter (fun m => m.week ≠ w) = ms.filter (fun m => m.week ≠ w) ∧
    (upsert (upsert ms w d1 n1) w d2 n2).filter (fun m => m.week = w) = [⟨w, d2, n2⟩] := by
  exact ⟨rfl, upsert_filter_week ms w d1 n1, upsert_filter_ne_week ms w d1 n1,
    upsert_filter_week _ w d2 n2⟩

/-- C6 counterexample: when the fetch fails with an exception whose
`str` is the empty string, the returned error string is empty — the code
guarantees an error *value*, not a non-empty one. -/
theorem C6_counterexample :
    (fetch_rss (Except.error "") 10).1 = [] ∧
    (fetch_rss (Except.error "") 10).2 = some "" ∧
    ¬ 0 < ("" : String).length := by
  refine ⟨rfl, rfl, by decide⟩

/-- C6 (amended): if the fetch/parse pipeline fails for any reason, the
function returns the empty item list paired with the exception's message
(always present, though the code does not guarantee it non-empty), and
never raises; on success it returns the processed items paired with no
error. -/
theorem C6_fetch_rss (max_items : Nat) :
    (∀ msg : String, fetch_rss (Except.error msg) max_items = ([], some msg)) ∧
    (∀ entries : List RawEntry,
      fetch_rss (Except.ok entries) max_items
        = (processEntries entries max_items, none)) :=
  ⟨fun _ => rfl, fun _ => rfl⟩

/-- C7: saving a progress table rewrites every date cell as the canonical
ISO string of its calendar date, and reloading parses it back: the loaded
rows carry exactly the calendar dates (and other fields) of the rows
saved, whatever in-memory representation each date had. -/
theorem C7_progress_roundtrip (df : List PEntry)
    (H : ∀ r ∈ df, ∃ d, to_datetime_date r.date = some d ∧ d.Valid) :
    ∃ saved table, save_progress df = some saved ∧
      load_progress (some saved) = some table ∧
      List.Forall₂ (fun (r : PEntry) (l : LEntry) =>
        to_datetime_date r.date = some l.date ∧ l.module = r.module ∧
        l.minutes = r.minutes ∧ l.note = r.note) df table.rows := by
  obtain ⟨saved, loaded, h1, h2, h3⟩ := mapM_save_load_roundtrip df H
  by_cases hs : saved = []
  · subst hs
    have hl : loaded = [] := by
      have : (some [] : Option (List LEntry)) = some loaded := by
        rw [← h2]
        rfl
      simpa using this.symm
    subst hl
    exact ⟨[], ⟨["date", "module", "minutes", "note"], []⟩, h1, by simp [load_progress], h3⟩
  · refine ⟨saved, ⟨["date", "module", "minutes", "note"], loaded⟩, h1, ?_, h3⟩
    simp only [load_progress, if_neg hs]
    rw [h2]
    rfl

/-- C7 witness: a one-row table whose date is held as the raw string
"2024-01-05" saves and reloads to the calendar date (2024, 1, 5). -/
theorem C7_progress_roundtrip_witness :
    ∃ saved table,
      save_progress [⟨DateRepr.str "2024-01-05".data, "stats", 30, "n"⟩] = some saved ∧
      load_progress (some saved) = some table ∧
      List.Forall₂ (fun (r : PEntry) (l : LEntry) =>
        to_datetime_date r.date = some l.date ∧ l.module = r.module ∧
        l.minutes = r.minutes ∧ l.note = r.note)
        [⟨DateRepr.str "2024-01-05".data, "stats", 30, "n"⟩] table.rows :=
  C7_progress_roundtrip [⟨DateRepr.str "2024-01-05".data, "stats", 30, "n"⟩]
    (by
      intro r hr
      rw [List.mem_singleton.1 hr]
      exact ⟨⟨2024, 1, 5⟩, by decide, by decide⟩)

/-- C8: for each ledger, a missing backing file loads as the empty table
with that ledger's fixed canonical column schema, without failing. -/
theorem C8_missing_file_loads :
    load_progress none = some ⟨["date", "module", "minutes", "note"], []⟩ ∧
    load_milestones none = ⟨["week", "done_date", "note"], []⟩ ∧
    load_reflections none = ⟨["timestamp", "date", "topic", "mood", "text", "tags"], []⟩ :=
  ⟨rfl, rfl, rfl⟩

/-- C9: submitting the deliverable form with the completion box unchecked
performs no write and leaves the milestone table unchanged. -/
theorem C9_unchecked_noop (ms : List Milestone) (w : Int) (d n : String) :
    saveDeliverableHandler false ms w d n = (ms, false) := rfl

/-- C10: when no entry's module is named "total" and at least one entry
is in range, the "total" value equals the sum of the per-module values of
the returned mapping; and for any non-empty entry sequence the "total"
key holds the grand sum of the in-range minutes — so when an in-range
module is literally named "total", its grouped sum is overwritten by the
grand-sum key. -/
theorem C10_total_consistency (df : List Entry) (s e : Int) :
    ((∀ r ∈ df, r.module ≠ "total") → filterRange df s e ≠ [] →
      Dict.find (cumulative_actual df s e) "total"
        = some ((((cumulative_actual df s e).filter (fun p => p.1 ≠ "total")).map
            (fun p => p.2)).sum)) ∧
    (df ≠ [] →
      Dict.find (cumulative_actual df s e) "total"
        = some (sumMinutes (filterRange df s e))) := by
  constructor
  · intro hno hne
    have hdf : df ≠ [] := by
      intro h
      exact hne (by simp [h, filterRange])
    have hca := cumulative_actual_of_ne_nil df s e hdf
    have hsub : ∀ r ∈ filterRange df s e, r.module ≠ "total" := by
      intro r hr
      exact hno r (List.mem_filter.1 hr).1
    have hkeys := groupSum_keys_ne (filterRange df s e) "total" hsub
    have happ := Dict.insert_of_not_key (groupSum (filterRange df s e)) "total"
      (sumMinutes (filterRange df s e)) hkeys
    have hfilter : (cumulative_actual df s e).filter (fun p => p.1 ≠ "total")
        = groupSum (filterRange df s e) := by
      rw [hca, happ, List.filter_append]
      have hg : (groupSum (filterRange df s e)).filter (fun p => p.1 ≠ "total")
          = groupSum (filterRange df s e) := by
        rw [List.filter_eq_self]
        intro p hp
        have := List.any_eq_false.1 hkeys p hp
        simpa using this
      have ht : ([(("total", sumMinutes (filterRange df s e)) : String × Int)]).filter
          (fun p => p.1 ≠ "total") = [] := by simp
      rw [hg, ht, List.append_nil]
    rw [hfilter, hca, Dict.find_insert_self, groupSum_values_sum]
  · intro hdf
    rw [cumulative_actual_of_ne_nil df s e hdf, Dict.find_insert_self]

/-- C10 witness: for entries `[(0, "stats", 30), (0, "algo", 10)]` over
`0..0`, the "total" value equals the sum of the per-module values of the
returned mapping. -/
theorem C10_total_consistency_witness :
    Dict.find (cumulative_actual [⟨0, "stats", 30, ""⟩, ⟨0, "algo", 10, ""⟩] 0 0) "total"
      = some ((((cumulative_actual [⟨0, "stats", 30, ""⟩, ⟨0, "algo", 10, ""⟩] 0 0).filter
          (fun p => p.1 ≠ "total")).map (fun p => p.2)).sum) :=
  (C10_total_consistency [⟨0, "stats", 30, ""⟩, ⟨0, "algo", 10, ""⟩] 0 0).1
    (by decide) (by decide)

end StudyTracker
